import Mathlib

/-!
Verification of the cloudmarker pipeline core against its specification.

Shallow embedding of the two source modules:

* `cloudmarker/workers.py` — the three worker loop functions
  (`cloud_worker`, `store_worker`, `check_worker`), modelled as pure
  functions that produce a trace of observable actions (queue puts,
  queue gets, plugin calls, log lines) together with a termination
  outcome.  Plugin behaviour is abstracted by the data a plugin method
  returns plus a flag saying whether the method raises.

* `cloudmarker/events/azwebapptlsevent.py` — the representative
  transform plugin, modelled over a dictionary data model: a record is
  an association list of named buckets, a bucket an association list of
  values.  Python `None` is an explicit value, Python exceptions are an
  `Except` error, and Python `float` is modelled by exact rational
  numbers (the comparisons the plugin performs on parsed decimal
  strings agree between IEEE doubles and rationals, since decimal
  parsing is monotone).
-/

namespace Cloudmarker

/-- A Python value stored in a bucket: a string or `None`.  The plugin
only ever stores and compares strings, so no other variants are
needed. -/
inductive Val where
  | str : String → Val
  | none : Val
deriving DecidableEq, Repr

/-- A bucket: a Python dict from field names to values, modelled as an
association list (first binding wins on lookup). -/
abbrev Bucket := List (String × Val)

/-- A record: a Python dict from bucket names (`com`, `ext`, `raw`) to
buckets. -/
abbrev Record := List (String × Bucket)

/-- Dictionary lookup: value of the first binding of key `k`, if any. -/
def dget : List (String × α) → String → Option α
  | [], _ => Option.none
  | p :: d, k => if p.1 == k then Option.some p.2 else dget d k

/-- Python `bucket.get(k)`: the stored value, or `None` when the key is
absent (exactly like Python, a stored `None` and a missing key are
indistinguishable through `get`). -/
def bget (b : Bucket) (k : String) : Val :=
  match dget b k with
  | Option.some v => v
  | Option.none => Val.none

/-- Python `record.get(k)` for the bucket level: `Option` distinguishes
a present bucket from `None`. -/
def rget (r : Record) (k : String) : Option Bucket :=
  dget r k

/-- Python exceptions the embedded code can raise. -/
inductive PyErr where
  | typeError
  | valueError
  | attributeError
deriving DecidableEq, Repr

/-- Numeric value of a list of decimal digit characters. -/
def digitsToNat (ds : List Char) : Nat :=
  ds.foldl (fun acc c => acc * 10 + (c.toNat - 48)) 0

/-- Strip leading and trailing whitespace, as Python `float` does. -/
def pstrip (cs : List Char) : List Char :=
  ((cs.dropWhile Char.isWhitespace).reverse.dropWhile Char.isWhitespace).reverse

/-- Parse the unsigned mantissa `digits [. digits]` of a Python float
literal; at least one digit must be present.  Returns the mantissa read
as an integer (fraction digits included), the number of fraction
digits, and the remaining characters. -/
def parseUnsigned (cs : List Char) : Option (Nat × Nat × List Char) :=
  let ds := cs.takeWhile Char.isDigit
  let rest := cs.dropWhile Char.isDigit
  match rest with
  | '.' :: rest2 =>
    let fs := rest2.takeWhile Char.isDigit
    let rest3 := rest2.dropWhile Char.isDigit
    if ds.isEmpty && fs.isEmpty then Option.none
    else Option.some (digitsToNat (ds ++ fs), fs.length, rest3)
  | _ =>
    if ds.isEmpty then Option.none
    else Option.some (digitsToNat ds, 0, rest)

/-- Parse the optional exponent part `(e|E) [sign] digits` closing a
Python float literal; anything else trailing makes the parse fail. -/
def parseExpPart (cs : List Char) : Option Int :=
  match cs with
  | [] => Option.some 0
  | c :: rest =>
    if c == 'e' || c == 'E' then
      let sds : Bool × List Char :=
        match rest with
        | '+' :: ds => (true, ds)
        | '-' :: ds => (false, ds)
        | ds => (true, ds)
      if sds.2.isEmpty || !sds.2.all Char.isDigit then Option.none
      else
        Option.some (if sds.1 then (digitsToNat sds.2 : Int)
          else -(digitsToNat sds.2 : Int))
    else Option.none

/-- Syntactic analysis of a Python float literal: optional whitespace,
an optional sign, a decimal mantissa, an optional exponent.  Returns
the sign, the mantissa as a natural number and the overall power of ten
(fraction digits folded into the exponent).  This stage is pure
character and integer computation. -/
def parseFloatRepr (s : String) : Option (Bool × Nat × Int) :=
  let cs := pstrip s.toList
  let sgncs : Bool × List Char :=
    match cs with
    | '-' :: t => (true, t)
    | '+' :: t => (false, t)
    | t => (false, t)
  match parseUnsigned sgncs.2 with
  | Option.none => Option.none
  | Option.some mkrest =>
    match parseExpPart mkrest.2.2 with
    | Option.none => Option.none
    | Option.some e =>
      Option.some (sgncs.1, mkrest.1, e - (mkrest.2.1 : Int))

/-- Rational value of a parsed literal: sign times mantissa times the
power of ten. -/
def ratOfRepr (r : Bool × Nat × Int) : ℚ :=
  (if r.1 then -1 else 1) * (r.2.1 : ℚ) * (10 : ℚ) ^ r.2.2

/-- Model of Python `float(s)` on a string.  (Python also accepts
`inf`, `nan` and underscore separators; those never hold a TLS version
and are modelled as parse failures.)  Exact rationals stand in for IEEE
doubles: decimal-to-double conversion is monotone, so every strict
comparison the plugin performs agrees with the rational one. -/
def parseFloat (s : String) : Option ℚ :=
  Option.map ratOfRepr (parseFloatRepr s)

/-- Python `float(v)` on a bucket value: `float(None)` raises
`TypeError`, a non-numeric string raises `ValueError`. -/
def pyFloat : Val → Except PyErr ℚ
  | Val.none => Except.error PyErr.typeError
  | Val.str s =>
    match parseFloat s with
    | Option.some q => Except.ok q
    | Option.none => Except.error PyErr.valueError

/-- Modelled from the spec: `util.merge_dicts` (from `cloudmarker/util.py`,
which is not among the sources).  The spec fixes its semantics: "shallow
copy of original keys, then apply overrides; original bucket is not
mutated — a new mapping is produced".  Keys of the first dict keep their
place with values overridden by the second dict where present; keys only
in the second dict follow. -/
def merge_dicts (d1 d2 : Bucket) : Bucket :=
  d1.map (fun p =>
    match dget d2 p.1 with
    | Option.some v => (p.1, v)
    | Option.none => p) ++
  d2.filter (fun q => !(d1.any (fun p => p.1 == q.1)))

/-- Display text of a value under Python `str`-formatting (`None`
prints as `"None"`). -/
def valStr : Val → String
  | Val.str s => s
  | Val.none => "None"

/-- Modelled from the spec: `util.friendly_string` (from
`cloudmarker/util.py`, which is not among the sources).  The spec only
requires "a synthesized human-readable description" naming the cloud
type, so the model renders the value's display text. -/
def friendly_string (v : Val) : String :=
  valStr v

/-- Display text of the numeric threshold, standing in for Python
`str(min_tls_version)` inside the recommendation string. -/
def qStr (q : ℚ) : String :=
  toString q

/-- The fresh `com` bucket of the `event_record` dictionary literal
built inside `_get_azure_web_app_tls_event`. -/
def tls_event_com (comB : Bucket) (min_tls_version : ℚ) : Bucket :=
  let friendly_cloud_type := friendly_string (bget comB "cloud_type")
  let reference := bget comB "reference"
  let description :=
    friendly_cloud_type ++ " web app " ++ valStr reference ++
      " has insecure minimum TLS version."
  let recommendation :=
    "Check " ++ friendly_cloud_type ++ " web app " ++ valStr reference ++
      " and ensure the minimum TLS version is set to " ++
      qStr min_tls_version ++ "."
  [("cloud_type", bget comB "cloud_type"),
   ("record_type", Val.str "web_app_tls_event"),
   ("reference", reference),
   ("description", Val.str description),
   ("recommendation", Val.str recommendation)]

/-- The `event_record` dictionary literal built inside
`_get_azure_web_app_tls_event` for a (non-`None`) `com` bucket. -/
def tls_event_record (comB : Bucket) (ext : Bucket)
    (min_tls_version : ℚ) : Record :=
  [("ext", merge_dicts ext [("record_type", Val.str "web_app_tls_event")]),
   ("com", tls_event_com comB min_tls_version)]

/-- The `_get_azure_web_app_tls_event` generator: builds and yields the
single event record.  When `com` is `None` (record had no `com`
bucket), the attribute access `com.get` raises `AttributeError` before
anything is yielded. -/
def get_azure_web_app_tls_event (com : Option Bucket) (ext : Bucket)
    (min_tls_version : ℚ) : Except PyErr (List Record) :=
  match com with
  | Option.none => Except.error PyErr.attributeError
  | Option.some comB =>
    Except.ok [tls_event_record comB ext min_tls_version]

/-- The TLS plugin: its only state is the configured threshold
(`_min_tls_version`, default `1.2`). -/
structure AzWebAppTLSEvent where
  min_tls_version : ℚ := 1.2
deriving DecidableEq, Repr

/-- `AzWebAppTLSEvent.eval`, with the lazy generator forced to either
the list of yielded event records or the exception it raises. -/
def AzWebAppTLSEvent.eval (self : AzWebAppTLSEvent) (record : Record) :
    Except PyErr (List Record) :=
  let com := rget record "com"
  match rget record "ext" with
  | Option.none => Except.ok []
  | Option.some ext =>
    if bget ext "record_type" != Val.str "web_app_config" then Except.ok []
    else
      match pyFloat (bget ext "min_tls_version") with
      | Except.error e => Except.error e
      | Except.ok v =>
        if v < self.min_tls_version then
          get_azure_web_app_tls_event com ext self.min_tls_version
        else Except.ok []

/-- `AzWebAppTLSEvent.done`: does nothing. -/
def AzWebAppTLSEvent.done (_self : AzWebAppTLSEvent) : Unit := ()

/-! ## Worker model (`cloudmarker/workers.py`)

A queue carries records or the end-of-stream Sentinel (`None`).  A
worker run is modelled as the trace of its observable actions together
with a termination outcome.  Plugin methods are abstracted by what they
return plus whether they raise: a generator that raises mid-iteration
is observationally the generator that yields the prefix produced so far
and then raises, so `read` is a list plus a flag and `eval` a function
to a list plus a flag. -/

/-- An item travelling on a queue: a record, or the Sentinel (`None`). -/
inductive QItem (α : Type) where
  | record : α → QItem α
  | sentinel
deriving DecidableEq, Repr

/-- An observable action of a worker: a log line, a `get` from the
input queue (with the item obtained), a `put` of an item into the
output queue of a given index, a call to the plugin's `write`, or a
call to the plugin's `done`. -/
inductive Act (α : Type) where
  | logStart : String → Act α
  | logStop : String → Act α
  | got : QItem α → Act α
  | put : Nat → QItem α → Act α
  | write : α → Act α
  | done
deriving DecidableEq, Repr

/-- How a worker run ends: the function returned (`completed`), a
plugin exception propagated out of it (`raised`), or it is blocked
forever on an input queue that never delivers another item
(`blocked`). -/
inductive Outcome where
  | completed
  | raised
  | blocked
deriving DecidableEq, Repr

/-- The inner `for q in output_queues: q.put(r)` loop: one `put` of the
record into each of the `nq` output queues, in configuration order. -/
def fanout (nq : Nat) (r : α) : List (Act α) :=
  (List.range nq).map (fun i => Act.put i (QItem.record r))

/-- `cloud_worker`: log start, put every record yielded by
`cloud_plugin.read()` into each output queue, call `done()`, log stop.
`records` is the sequence `read()` yields before it either finishes
(`readOk = true`) or raises; `doneOk` says whether `done()` returns
normally. -/
def cloud_worker (worker_name : String) (records : List α) (readOk : Bool)
    (nq : Nat) (doneOk : Bool) : List (Act α) × Outcome :=
  let body := records.flatMap (fun r => fanout nq r)
  if readOk then
    if doneOk then
      (Act.logStart worker_name :: body ++ [Act.done, Act.logStop worker_name],
        Outcome.completed)
    else
      (Act.logStart worker_name :: body ++ [Act.done], Outcome.raised)
  else
    (Act.logStart worker_name :: body, Outcome.raised)

/-- The `while True` loop of `store_worker`, driven by the sequence of
items the input queue will deliver.  On the Sentinel: call `done()` and
break (or propagate `done`'s exception).  On a record: call `write`,
which either returns (continue looping) or raises.  An exhausted item
sequence means the worker is blocked in `input_queue.get()`. -/
def store_loop (writeOk : α → Bool) (doneOk : Bool) :
    List (QItem α) → List (Act α) × Outcome
  | [] => ([], Outcome.blocked)
  | QItem.sentinel :: _ =>
    ([Act.got QItem.sentinel, Act.done],
      if doneOk then Outcome.completed else Outcome.raised)
  | QItem.record r :: rest =>
    if writeOk r then
      let res := store_loop writeOk doneOk rest
      (Act.got (QItem.record r) :: Act.write r :: res.1, res.2)
    else
      ([Act.got (QItem.record r), Act.write r], Outcome.raised)

/-- `store_worker`: log start, run the read loop, and log stop — the
stop line is reached only when the loop broke out normally. -/
def store_worker (worker_name : String) (writeOk : α → Bool) (doneOk : Bool)
    (input_queue : List (QItem α)) : List (Act α) × Outcome :=
  let res := store_loop writeOk doneOk input_queue
  match res.2 with
  | Outcome.completed =>
    (Act.logStart worker_name :: res.1 ++ [Act.logStop worker_name],
      Outcome.completed)
  | o => (Act.logStart worker_name :: res.1, o)

/-- The `while True` loop of `check_worker`.  On the Sentinel: call
`done()` and break.  On a record: iterate `check_plugin.eval(record)`
— `evalF r` gives the event records the generator yields and whether it
then finishes normally (`true`) or raises after the last yield — and
put each yielded event into every output queue. -/
def check_loop (evalF : α → List α × Bool) (nq : Nat) (doneOk : Bool) :
    List (QItem α) → List (Act α) × Outcome
  | [] => ([], Outcome.blocked)
  | QItem.sentinel :: _ =>
    ([Act.got QItem.sentinel, Act.done],
      if doneOk then Outcome.completed else Outcome.raised)
  | QItem.record r :: rest =>
    let puts := (evalF r).1.flatMap (fun e => fanout nq e)
    if (evalF r).2 then
      let res := check_loop evalF nq doneOk rest
      (Act.got (QItem.record r) :: puts ++ res.1, res.2)
    else
      (Act.got (QItem.record r) :: puts, Outcome.raised)

/-- `check_worker`: log start, run the read loop, and log stop — the
stop line is reached only when the loop broke out normally. -/
def check_worker (worker_name : String) (evalF : α → List α × Bool)
    (nq : Nat) (doneOk : Bool) (input_queue : List (QItem α)) :
    List (Act α) × Outcome :=
  let res := check_loop evalF nq doneOk input_queue
  match res.2 with
  | Outcome.completed =>
    (Act.logStart worker_name :: res.1 ++ [Act.logStop worker_name],
      Outcome.completed)
  | o => (Act.logStart worker_name :: res.1, o)

/-- The sequence of items a trace puts into output queue `i`. -/
def putsTo (i : Nat) (t : List (Act α)) : List (QItem α) :=
  t.filterMap (fun a =>
    match a with
    | Act.put j x => if j == i then Option.some x else Option.none
    | _ => Option.none)

/-- The sequence of items a trace reads from the input queue. -/
def gotItems (t : List (Act α)) : List (QItem α) :=
  t.filterMap (fun a =>
    match a with
    | Act.got x => Option.some x
    | _ => Option.none)

/-- How many times a trace calls the plugin's `done`. -/
def doneCount (t : List (Act α)) : Nat :=
  t.countP (fun a =>
    match a with
    | Act.done => true
    | _ => false)

/-- The event records a transform plugin yields during a run fed by
`input`: the concatenation of `eval`'s yields over the records before
the first Sentinel, cut short when an `eval` raises. -/
def producedEvents (evalF : α → List α × Bool) :
    List (QItem α) → List α
  | [] => []
  | QItem.sentinel :: _ => []
  | QItem.record r :: rest =>
    (evalF r).1 ++ (if (evalF r).2 then producedEvents evalF rest else [])

/-- The `check_worker` plugin abstraction instantiated with the TLS
plugin: the generator's yields when `eval` finishes, the yielded prefix
(empty — the plugin raises before its first yield) when it raises. -/
def tlsEvalF (t : ℚ) (r : Record) : List Record × Bool :=
  match AzWebAppTLSEvent.eval ⟨t⟩ r with
  | Except.ok evs => (evs, true)
  | Except.error _ => ([], false)

/-! ## Trace lemmas -/

theorem putsTo_nil (i : Nat) : putsTo i ([] : List (Act α)) = [] := rfl

theorem putsTo_append (i : Nat) (s t : List (Act α)) :
    putsTo i (s ++ t) = putsTo i s ++ putsTo i t := by
  simp [putsTo, List.filterMap_append]

theorem putsTo_cons_logStart (i : Nat) (s : String) (t : List (Act α)) :
    putsTo i (Act.logStart s :: t) = putsTo i t := by
  simp [putsTo, List.filterMap_cons]

theorem putsTo_cons_logStop (i : Nat) (s : String) (t : List (Act α)) :
    putsTo i (Act.logStop s :: t) = putsTo i t := by
  simp [putsTo, List.filterMap_cons]

theorem putsTo_cons_got (i : Nat) (x : QItem α) (t : List (Act α)) :
    putsTo i (Act.got x :: t) = putsTo i t := by
  simp [putsTo, List.filterMap_cons]

theorem putsTo_cons_write (i : Nat) (r : α) (t : List (Act α)) :
    putsTo i (Act.write r :: t) = putsTo i t := by
  simp [putsTo, List.filterMap_cons]

theorem putsTo_cons_done (i : Nat) (t : List (Act α)) :
    putsTo i (Act.done :: t) = putsTo i t := by
  simp [putsTo, List.filterMap_cons]

theorem putsTo_cons_put (i j : Nat) (x : QItem α) (t : List (Act α)) :
    putsTo i (Act.put j x :: t)
      = if j = i then x :: putsTo i t else putsTo i t := by
  by_cases h : j = i <;> simp [putsTo, List.filterMap_cons, h]

theorem fanout_succ (n : Nat) (r : α) :
    fanout (n + 1) r = fanout n r ++ [Act.put n (QItem.record r)] := by
  simp [fanout, List.range_succ]

theorem putsTo_fanout (i nq : Nat) (r : α) :
    putsTo i (fanout nq r) = if i < nq then [QItem.record r] else [] := by
  induction nq with
  | zero => simp [fanout, putsTo]
  | succ n ih =>
    rw [fanout_succ, putsTo_append, ih, putsTo_cons_put, putsTo_nil]
    by_cases h : i < n
    · have h1 : i < n + 1 := by omega
      have h2 : ¬ (n = i) := by omega
      simp [h, h1, h2]
    · by_cases h3 : i = n
      · subst h3
        simp
      · have h4 : ¬ (i < n + 1) := by omega
        have h5 : ¬ (n = i) := by omega
        simp [h, h4, h5]

theorem putsTo_flatMap_fanout (i nq : Nat) (rs : List α) :
    putsTo i (rs.flatMap (fun r => fanout nq r))
      = if i < nq then rs.map QItem.record else [] := by
  induction rs with
  | nil => simp [putsTo]
  | cons r rs ih =>
    rw [List.flatMap_cons, putsTo_append, putsTo_fanout, ih]
    by_cases h : i < nq <;> simp [h]

theorem gotItems_nil : gotItems ([] : List (Act α)) = [] := rfl

theorem gotItems_append (s t : List (Act α)) :
    gotItems (s ++ t) = gotItems s ++ gotItems t := by
  simp [gotItems, List.filterMap_append]

theorem gotItems_cons_got (x : QItem α) (t : List (Act α)) :
    gotItems (Act.got x :: t) = x :: gotItems t := by
  simp [gotItems, List.filterMap_cons]

theorem gotItems_cons_write (r : α) (t : List (Act α)) :
    gotItems (Act.write r :: t) = gotItems t := by
  simp [gotItems, List.filterMap_cons]

theorem gotItems_fanout (nq : Nat) (r : α) :
    gotItems (fanout nq r) = [] := by
  rw [gotItems, List.filterMap_eq_nil_iff.mpr]
  intro a ha
  rw [fanout, List.mem_map] at ha
  obtain ⟨j, _, rfl⟩ := ha
  rfl

theorem gotItems_flatMap_fanout (nq : Nat) (rs : List α) :
    gotItems (rs.flatMap (fun r => fanout nq r)) = [] := by
  induction rs with
  | nil => rfl
  | cons r rs ih =>
    rw [List.flatMap_cons, gotItems_append, gotItems_fanout, ih]
    rfl

theorem doneCount_nil : doneCount ([] : List (Act α)) = 0 := rfl

theorem doneCount_append (s t : List (Act α)) :
    doneCount (s ++ t) = doneCount s + doneCount t := by
  simp [doneCount, List.countP_append]

theorem doneCount_fanout (nq : Nat) (r : α) :
    doneCount (fanout nq r) = 0 := by
  rw [doneCount, List.countP_eq_zero]
  intro a ha
  rw [fanout, List.mem_map] at ha
  obtain ⟨j, _, rfl⟩ := ha
  simp

theorem doneCount_flatMap_fanout (nq : Nat) (rs : List α) :
    doneCount (rs.flatMap (fun r => fanout nq r)) = 0 := by
  induction rs with
  | nil => rfl
  | cons r rs ih => rw [List.flatMap_cons, doneCount_append, doneCount_fanout, ih]

theorem logStop_not_mem_fanout (s : String) (nq : Nat) (r : α) :
    Act.logStop s ∉ fanout nq r := by
  intro ha
  rw [fanout, List.mem_map] at ha
  obtain ⟨j, _, h⟩ := ha
  exact Act.noConfusion h

theorem logStop_not_mem_flatMap_fanout (s : String) (nq : Nat) (rs : List α) :
    Act.logStop s ∉ rs.flatMap (fun r => fanout nq r) := by
  intro ha
  rw [List.mem_flatMap] at ha
  obtain ⟨r, _, h⟩ := ha
  exact logStop_not_mem_fanout s nq r h

theorem gotItems_cons_logStart (s : String) (t : List (Act α)) :
    gotItems (Act.logStart s :: t) = gotItems t := by
  simp [gotItems, List.filterMap_cons]

theorem gotItems_cons_logStop (s : String) (t : List (Act α)) :
    gotItems (Act.logStop s :: t) = gotItems t := by
  simp [gotItems, List.filterMap_cons]

theorem gotItems_cons_done (t : List (Act α)) :
    gotItems (Act.done :: t) = gotItems t := by
  simp [gotItems, List.filterMap_cons]

theorem doneCount_cons_done (t : List (Act α)) :
    doneCount (Act.done :: t) = doneCount t + 1 := by
  simp [doneCount, List.countP_cons]

theorem doneCount_cons_logStart (s : String) (t : List (Act α)) :
    doneCount (Act.logStart s :: t) = doneCount t := by
  simp [doneCount, List.countP_cons]

theorem doneCount_cons_logStop (s : String) (t : List (Act α)) :
    doneCount (Act.logStop s :: t) = doneCount t := by
  simp [doneCount, List.countP_cons]

theorem doneCount_cons_got (x : QItem α) (t : List (Act α)) :
    doneCount (Act.got x :: t) = doneCount t := by
  simp [doneCount, List.countP_cons]

theorem doneCount_cons_write (r : α) (t : List (Act α)) :
    doneCount (Act.write r :: t) = doneCount t := by
  simp [doneCount, List.countP_cons]

/-! ## Worker-level helper lemmas -/

theorem putsTo_cloud_worker (i : Nat) (worker_name : String) (records : List α)
    (readOk : Bool) (nq : Nat) (doneOk : Bool) :
    putsTo i (cloud_worker worker_name records readOk nq doneOk).1
      = if i < nq then records.map QItem.record else [] := by
  cases readOk <;> cases doneOk <;>
    simp [cloud_worker, putsTo_cons_logStart, putsTo_append,
      putsTo_flatMap_fanout, putsTo_cons_done, putsTo_cons_logStop, putsTo_nil]

theorem putsTo_check_loop (i : Nat) (evalF : α → List α × Bool) (nq : Nat)
    (doneOk : Bool) (input : List (QItem α)) :
    putsTo i (check_loop evalF nq doneOk input).1
      = if i < nq then (producedEvents evalF input).map QItem.record else [] := by
  induction input with
  | nil => simp [check_loop, producedEvents, putsTo]
  | cons x rest ih =>
    cases x with
    | sentinel =>
      simp [check_loop, producedEvents, putsTo_cons_got, putsTo_cons_done,
        putsTo_nil]
    | record r =>
      cases hb : (evalF r).2
      · simp only [check_loop, producedEvents, hb, Bool.false_eq_true,
          ite_false]
        rw [putsTo_cons_got, putsTo_flatMap_fanout]
        by_cases h : i < nq <;> simp [h]
      · simp only [check_loop, producedEvents, hb, ite_true]
        rw [List.cons_append, putsTo_cons_got, putsTo_append,
          putsTo_flatMap_fanout, ih]
        by_cases h : i < nq <;> simp [h]

theorem putsTo_check_worker (i : Nat) (worker_name : String)
    (evalF : α → List α × Bool) (nq : Nat) (doneOk : Bool)
    (input : List (QItem α)) :
    putsTo i (check_worker worker_name evalF nq doneOk input).1
      = if i < nq then (producedEvents evalF input).map QItem.record else [] := by
  have key := putsTo_check_loop i evalF nq doneOk input
  unfold check_worker
  cases ho : (check_loop evalF nq doneOk input).2 <;>
    simp [ho, putsTo_cons_logStart, putsTo_append, putsTo_nil,
      putsTo_cons_logStop, key]

theorem store_loop_reach (writeOk : α → Bool) (doneOk : Bool)
    (pre post : List (QItem α)) (hpre : QItem.sentinel ∉ pre)
    (hw : ∀ r, QItem.record r ∈ pre → writeOk r = true) :
    gotItems (store_loop writeOk doneOk (pre ++ QItem.sentinel :: post)).1
        = pre ++ [QItem.sentinel]
      ∧ doneCount (store_loop writeOk doneOk (pre ++ QItem.sentinel :: post)).1
        = 1
      ∧ (store_loop writeOk doneOk (pre ++ QItem.sentinel :: post)).2
        = (if doneOk then Outcome.completed else Outcome.raised)
      ∧ ∃ t0, (store_loop writeOk doneOk (pre ++ QItem.sentinel :: post)).1
        = t0 ++ [Act.got QItem.sentinel, Act.done] := by
  induction pre with
  | nil =>
    refine ⟨?_, ?_, ?_, [], ?_⟩ <;>
      simp [store_loop, gotItems_cons_got, gotItems_cons_done, gotItems_nil,
        doneCount_cons_got, doneCount_cons_done, doneCount_nil]
  | cons x pre ih =>
    cases x with
    | sentinel => exact absurd (List.mem_cons_self _ _) hpre
    | record r =>
      have hwr : writeOk r = true := hw r (List.mem_cons_self _ _)
      have hpre2 : QItem.sentinel ∉ pre :=
        fun h => hpre (List.mem_cons_of_mem _ h)
      have hw2 : ∀ r2, QItem.record r2 ∈ pre → writeOk r2 = true :=
        fun r2 h => hw r2 (List.mem_cons_of_mem _ h)
      obtain ⟨ih1, ih2, ih3, t0, ih4⟩ := ih hpre2 hw2
      rw [List.cons_append]
      refine ⟨?_, ?_, ?_, Act.got (QItem.record r) :: Act.write r :: t0, ?_⟩ <;>
        simp only [store_loop, hwr, ite_true]
      · rw [gotItems_cons_got, gotItems_cons_write, ih1, List.cons_append]
      · rw [doneCount_cons_got, doneCount_cons_write, ih2]
      · exact ih3
      · rw [ih4, List.cons_append, List.cons_append]

theorem check_loop_reach (evalF : α → List α × Bool) (nq : Nat)
    (doneOk : Bool) (pre post : List (QItem α))
    (hpre : QItem.sentinel ∉ pre)
    (he : ∀ r, QItem.record r ∈ pre → (evalF r).2 = true) :
    gotItems (check_loop evalF nq doneOk (pre ++ QItem.sentinel :: post)).1
        = pre ++ [QItem.sentinel]
      ∧ doneCount (check_loop evalF nq doneOk (pre ++ QItem.sentinel :: post)).1
        = 1
      ∧ (check_loop evalF nq doneOk (pre ++ QItem.sentinel :: post)).2
        = (if doneOk then Outcome.completed else Outcome.raised)
      ∧ ∃ t0, (check_loop evalF nq doneOk (pre ++ QItem.sentinel :: post)).1
        = t0 ++ [Act.got QItem.sentinel, Act.done] := by
  induction pre with
  | nil =>
    refine ⟨?_, ?_, ?_, [], ?_⟩ <;>
      simp [check_loop, gotItems_cons_got, gotItems_cons_done, gotItems_nil,
        doneCount_cons_got, doneCount_cons_done, doneCount_nil]
  | cons x pre ih =>
    cases x with
    | sentinel => exact absurd (List.mem_cons_self _ _) hpre
    | record r =>
      have her : (evalF r).2 = true := he r (List.mem_cons_self _ _)
      have hpre2 : QItem.sentinel ∉ pre :=
        fun h => hpre (List.mem_cons_of_mem _ h)
      have he2 : ∀ r2, QItem.record r2 ∈ pre → (evalF r2).2 = true :=
        fun r2 h => he r2 (List.mem_cons_of_mem _ h)
      obtain ⟨ih1, ih2, ih3, t0, ih4⟩ := ih hpre2 he2
      rw [List.cons_append]
      refine ⟨?_, ?_, ?_,
          Act.got (QItem.record r)
            :: ((evalF r).1.flatMap (fun e => fanout nq e) ++ t0), ?_⟩ <;>
        simp only [check_loop, her, ite_true]
      · rw [List.cons_append, gotItems_cons_got, gotItems_append,
          gotItems_flatMap_fanout, ih1, List.nil_append, List.cons_append]
      · rw [List.cons_append, doneCount_cons_got, doneCount_append,
          doneCount_flatMap_fanout, ih2]
      · exact ih3
      · rw [ih4, List.cons_append, List.cons_append, List.append_assoc]

theorem store_loop_any (writeOk : α → Bool) (doneOk : Bool)
    (input : List (QItem α)) :
    doneCount (store_loop writeOk doneOk input).1 ≤ 1
      ∧ ∀ s : String, Act.logStop s ∉ (store_loop writeOk doneOk input).1 := by
  induction input with
  | nil => simp [store_loop, doneCount_nil]
  | cons x rest ih =>
    cases x with
    | sentinel =>
      refine ⟨?_, ?_⟩ <;>
        simp [store_loop, doneCount_cons_got, doneCount_cons_done,
          doneCount_nil]
    | record r =>
      obtain ⟨ih1, ih2⟩ := ih
      cases hwr : writeOk r <;>
        simp only [store_loop, hwr, Bool.false_eq_true, ite_false, ite_true]
      · refine ⟨?_, ?_⟩ <;>
          simp [doneCount_cons_got, doneCount_cons_write, doneCount_nil]
      · refine ⟨?_, ?_⟩
        · rw [doneCount_cons_got, doneCount_cons_write]
          exact ih1
        · intro s
          simp only [List.mem_cons]
          push_neg
          exact ⟨by simp, by simp, ih2 s⟩

theorem check_loop_any (evalF : α → List α × Bool) (nq : Nat)
    (doneOk : Bool) (input : List (QItem α)) :
    doneCount (check_loop evalF nq doneOk input).1 ≤ 1
      ∧ ∀ s : String, Act.logStop s ∉ (check_loop evalF nq doneOk input).1 := by
  induction input with
  | nil => simp [check_loop, doneCount_nil]
  | cons x rest ih =>
    cases x with
    | sentinel =>
      refine ⟨?_, ?_⟩ <;>
        simp [check_loop, doneCount_cons_got, doneCount_cons_done,
          doneCount_nil]
    | record r =>
      obtain ⟨ih1, ih2⟩ := ih
      cases hb : (evalF r).2 <;>
        simp only [check_loop, hb, Bool.false_eq_true, ite_false, ite_true]
      · refine ⟨?_, ?_⟩
        · rw [doneCount_cons_got, doneCount_flatMap_fanout]
          exact Nat.zero_le 1
        · intro s
          simp only [List.mem_cons]
          push_neg
          exact ⟨by simp, logStop_not_mem_flatMap_fanout s nq _⟩
      · refine ⟨?_, ?_⟩
        · rw [List.cons_append, doneCount_cons_got, doneCount_append,
            doneCount_flatMap_fanout]
          simpa using ih1
        · intro s
          rw [List.cons_append]
          simp only [List.mem_cons, List.mem_append]
          push_neg
          exact ⟨by simp, logStop_not_mem_flatMap_fanout s nq _, ih2 s⟩

theorem store_loop_completed_iff (writeOk : α → Bool) (doneOk : Bool)
    (pre post : List (QItem α)) (hpre : QItem.sentinel ∉ pre) :
    (store_loop writeOk doneOk (pre ++ QItem.sentinel :: post)).2
        = Outcome.completed
      ↔ ((∀ r, QItem.record r ∈ pre → writeOk r = true) ∧ doneOk = true) := by
  induction pre with
  | nil =>
    cases doneOk <;> simp [store_loop]
  | cons x pre ih =>
    cases x with
    | sentinel => exact absurd (List.mem_cons_self _ _) hpre
    | record r =>
      have hpre2 : QItem.sentinel ∉ pre :=
        fun h => hpre (List.mem_cons_of_mem _ h)
      rw [List.cons_append]
      cases hwr : writeOk r
      · simp only [store_loop, hwr, Bool.false_eq_true, ite_false]
        constructor
        · intro h
          exact Outcome.noConfusion h
        · rintro ⟨hall, -⟩
          have := hall r (List.mem_cons_self _ _)
          rw [hwr] at this
          exact Bool.noConfusion this
      · simp only [store_loop, hwr, ite_true]
        rw [ih hpre2]
        constructor
        · rintro ⟨hall, hd⟩
          refine ⟨?_, hd⟩
          intro r2 h2
          rcases List.mem_cons.mp h2 with h2 | h2
          · injection h2 with h3
            rw [h3]
            exact hwr
          · exact hall r2 h2
        · rintro ⟨hall, hd⟩
          exact ⟨fun r2 h2 => hall r2 (List.mem_cons_of_mem _ h2), hd⟩

theorem check_loop_completed_iff (evalF : α → List α × Bool) (nq : Nat)
    (doneOk : Bool) (pre post : List (QItem α))
    (hpre : QItem.sentinel ∉ pre) :
    (check_loop evalF nq doneOk (pre ++ QItem.sentinel :: post)).2
        = Outcome.completed
      ↔ ((∀ r, QItem.record r ∈ pre → (evalF r).2 = true) ∧ doneOk = true) := by
  induction pre with
  | nil =>
    cases doneOk <;> simp [check_loop]
  | cons x pre ih =>
    cases x with
    | sentinel => exact absurd (List.mem_cons_self _ _) hpre
    | record r =>
      have hpre2 : QItem.sentinel ∉ pre :=
        fun h => hpre (List.mem_cons_of_mem _ h)
      rw [List.cons_append]
      cases hb : (evalF r).2
      · simp only [check_loop, hb, Bool.false_eq_true, ite_false]
        constructor
        · intro h
          exact Outcome.noConfusion h
        · rintro ⟨hall, -⟩
          have := hall r (List.mem_cons_self _ _)
          rw [hb] at this
          exact Bool.noConfusion this
      · simp only [check_loop, hb, ite_true]
        rw [ih hpre2]
        constructor
        · rintro ⟨hall, hd⟩
          refine ⟨?_, hd⟩
          intro r2 h2
          rcases List.mem_cons.mp h2 with h2 | h2
          · injection h2 with h3
            rw [h3]
            exact hb
          · exact hall r2 h2
        · rintro ⟨hall, hd⟩
          exact ⟨fun r2 h2 => hall r2 (List.mem_cons_of_mem _ h2), hd⟩

/-! ## Worker wrapper lemmas -/

theorem store_worker_trace (worker_name : String) (writeOk : α → Bool)
    (doneOk : Bool) (input : List (QItem α)) :
    (store_worker worker_name writeOk doneOk input).1
      = Act.logStart worker_name :: (store_loop writeOk doneOk input).1
          ++ (if (store_loop writeOk doneOk input).2 = Outcome.completed
              then [Act.logStop worker_name] else []) := by
  unfold store_worker
  cases ho : (store_loop writeOk doneOk input).2 <;> simp [ho]

theorem store_worker_outcome (worker_name : String) (writeOk : α → Bool)
    (doneOk : Bool) (input : List (QItem α)) :
    (store_worker worker_name writeOk doneOk input).2
      = (store_loop writeOk doneOk input).2 := by
  unfold store_worker
  cases ho : (store_loop writeOk doneOk input).2 <;> simp [ho]

theorem check_worker_trace (worker_name : String) (evalF : α → List α × Bool)
    (nq : Nat) (doneOk : Bool) (input : List (QItem α)) :
    (check_worker worker_name evalF nq doneOk input).1
      = Act.logStart worker_name :: (check_loop evalF nq doneOk input).1
          ++ (if (check_loop evalF nq doneOk input).2 = Outcome.completed
              then [Act.logStop worker_name] else []) := by
  unfold check_worker
  cases ho : (check_loop evalF nq doneOk input).2 <;> simp [ho]

theorem check_worker_outcome (worker_name : String) (evalF : α → List α × Bool)
    (nq : Nat) (doneOk : Bool) (input : List (QItem α)) :
    (check_worker worker_name evalF nq doneOk input).2
      = (check_loop evalF nq doneOk input).2 := by
  unfold check_worker
  cases ho : (check_loop evalF nq doneOk input).2 <;> simp [ho]

theorem logStop_mem_store_worker_iff (worker_name : String)
    (writeOk : α → Bool) (doneOk : Bool) (input : List (QItem α)) :
    Act.logStop worker_name ∈ (store_worker worker_name writeOk doneOk input).1
      ↔ (store_loop writeOk doneOk input).2 = Outcome.completed := by
  rw [store_worker_trace]
  have hno := (store_loop_any writeOk doneOk input).2 worker_name
  cases ho : (store_loop writeOk doneOk input).2 <;>
    simp [ho, hno]

theorem logStop_mem_check_worker_iff (worker_name : String)
    (evalF : α → List α × Bool) (nq : Nat) (doneOk : Bool)
    (input : List (QItem α)) :
    Act.logStop worker_name
        ∈ (check_worker worker_name evalF nq doneOk input).1
      ↔ (check_loop evalF nq doneOk input).2 = Outcome.completed := by
  rw [check_worker_trace]
  have hno := (check_loop_any evalF nq doneOk input).2 worker_name
  cases ho : (check_loop evalF nq doneOk input).2 <;>
    simp [ho, hno]

/-! ## Dictionary lemmas for the merge semantics -/

theorem dget_append (d1 d2 : List (String × β)) (k : String) :
    dget (d1 ++ d2) k
      = match dget d1 k with
        | Option.some v => Option.some v
        | Option.none => dget d2 k := by
  induction d1 with
  | nil => rfl
  | cons p d ih =>
    rw [List.cons_append]
    cases h : (p.1 == k) <;> simp [dget, h, ih]

theorem any_key_eq_isSome (d : List (String × β)) (k : String) :
    d.any (fun p => p.1 == k) = (dget d k).isSome := by
  induction d with
  | nil => rfl
  | cons p d ih =>
    cases h : (p.1 == k) <;> simp [dget, h, ih, List.any_cons]

theorem dget_mapOverride (d1 d2 : Bucket) (k : String) :
    dget (d1.map (fun p =>
        match dget d2 p.1 with
        | Option.some v => (p.1, v)
        | Option.none => p)) k
      = Option.map (fun w =>
          match dget d2 k with
          | Option.some v => v
          | Option.none => w) (dget d1 k) := by
  induction d1 with
  | nil => rfl
  | cons p d ih =>
    obtain ⟨k1, v1⟩ := p
    rw [List.map_cons]
    by_cases h : k1 = k
    · subst h
      cases hd2 : dget d2 k1 <;> simp [dget, hd2]
    · have hne : (k1 == k) = false := beq_eq_false_iff_ne.mpr h
      cases hd2 : dget d2 k1 <;> simp [dget, hne, ih]

theorem bget_merge_single (d1 : Bucket) (rk : String) (v : Val) (k : String) :
    bget (merge_dicts d1 [(rk, v)]) k = if k = rk then v else bget d1 k := by
  unfold merge_dicts bget
  rw [dget_append, dget_mapOverride]
  by_cases h : k = rk
  · subst h
    cases hd1 : dget d1 k
    · have hany : d1.any (fun p => p.1 == k) = false := by
        rw [any_key_eq_isSome, hd1]
        rfl
      simp [hd1, hany, List.filter, dget]
    · simp [hd1, dget]
  · have hne : (rk == k) = false := beq_eq_false_iff_ne.mpr (fun hh => h hh.symm)
    cases hd1 : dget d1 k
    · cases hany : d1.any (fun p => p.1 == rk) <;>
        simp [hd1, hany, List.filter, dget, hne, h]
    · simp [hd1, dget, hne, h]

/-! ## TLS plugin lemmas -/

theorem pyFloat_str_some {s : String} {q : ℚ}
    (hp : parseFloat s = Option.some q) :
    pyFloat (Val.str s) = Except.ok q := by
  simp [pyFloat, hp]

theorem pyFloat_str_none {s : String} (hp : parseFloat s = Option.none) :
    pyFloat (Val.str s) = Except.error PyErr.valueError := by
  simp [pyFloat, hp]

theorem parseFloat_11 : parseFloat "1.1" = Option.some ((11 : ℚ) / 10) := by
  have h : parseFloatRepr "1.1" = Option.some (false, 11, -1) := by decide
  rw [parseFloat, h]
  simp [ratOfRepr]
  norm_num

theorem parseFloat_12 : parseFloat "1.2" = Option.some ((6 : ℚ) / 5) := by
  have h : parseFloatRepr "1.2" = Option.some (false, 12, -1) := by decide
  rw [parseFloat, h]
  simp [ratOfRepr]
  norm_num

theorem parseFloat_13 : parseFloat "1.3" = Option.some ((13 : ℚ) / 10) := by
  have h : parseFloatRepr "1.3" = Option.some (false, 13, -1) := by decide
  rw [parseFloat, h]
  simp [ratOfRepr]
  norm_num

theorem eval_applicable (t : ℚ) (record : Record) (ext : Bucket)
    (hext : rget record "ext" = Option.some ext)
    (hty : bget ext "record_type" = Val.str "web_app_config") :
    AzWebAppTLSEvent.eval ⟨t⟩ record
      = match pyFloat (bget ext "min_tls_version") with
        | Except.error e => Except.error e
        | Except.ok v =>
          if v < t then get_azure_web_app_tls_event (rget record "com") ext t
          else Except.ok [] := by
  unfold AzWebAppTLSEvent.eval
  rw [hext]
  simp [hty]

theorem rget_event_ext (comB : Bucket) (ext : Bucket) (t : ℚ) :
    rget (tls_event_record comB ext t) "ext"
      = Option.some
          (merge_dicts ext [("record_type", Val.str "web_app_tls_event")]) := by
  simp [tls_event_record, rget, dget]

theorem rget_event_com (comB : Bucket) (ext : Bucket) (t : ℚ) :
    ∃ evcom : Bucket,
      rget (tls_event_record comB ext t) "com" = Option.some evcom
        ∧ bget evcom "record_type" = Val.str "web_app_tls_event" := by
  refine ⟨tls_event_com comB t, ?_, ?_⟩
  · simp [tls_event_record, rget, dget]
  · simp [tls_event_com, bget, dget]

theorem eval_insecure (t q : ℚ) (record : Record) (ext : Bucket) (s : String)
    (hext : rget record "ext" = Option.some ext)
    (hty : bget ext "record_type" = Val.str "web_app_config")
    (hv : bget ext "min_tls_version" = Val.str s)
    (hp : parseFloat s = Option.some q)
    (hlt : q < t) :
    AzWebAppTLSEvent.eval ⟨t⟩ record
      = get_azure_web_app_tls_event (rget record "com") ext t := by
  rw [eval_applicable t record ext hext hty, hv, pyFloat_str_some hp]
  simp [hlt]

/-! ## Claims about the TLS plugin -/

/-- C7: for every record that has no `ext` key, `eval` yields zero
event records and raises no error: it returns normally with the empty
yield. -/
theorem missing_ext_bucket_skips (t : ℚ) (record : Record)
    (h : rget record "ext" = Option.none) :
    AzWebAppTLSEvent.eval ⟨t⟩ record = Except.ok [] := by
  unfold AzWebAppTLSEvent.eval
  rw [h]

/-- Witness for C7 at the empty record and the default threshold. -/
theorem missing_ext_bucket_skips_witness :
    rget ([] : Record) "ext" = Option.none
      ∧ AzWebAppTLSEvent.eval ⟨1.2⟩ ([] : Record) = Except.ok [] :=
  ⟨rfl, missing_ext_bucket_skips 1.2 [] rfl⟩

/-- C9: for every record whose `ext` bucket has record_type
`web_app_config` but no `min_tls_version` key, `eval` raises an error:
the absent value is read as `None` and passed to `float`, which raises
`TypeError` — the missing field is not handled like the documented
missing-bucket skip. -/
theorem missing_min_tls_version_raises (t : ℚ) (record : Record)
    (ext : Bucket)
    (hext : rget record "ext" = Option.some ext)
    (hty : bget ext "record_type" = Val.str "web_app_config")
    (hv : bget ext "min_tls_version" = Val.none) :
    AzWebAppTLSEvent.eval ⟨t⟩ record = Except.error PyErr.typeError := by
  rw [eval_applicable t record ext hext hty, hv]
  rfl

/-- Witness for C9 at a concrete `web_app_config` record lacking the
`min_tls_version` field. -/
theorem missing_min_tls_version_raises_witness :
    rget [("ext", [("record_type", Val.str "web_app_config")])] "ext"
        = Option.some [("record_type", Val.str "web_app_config")]
      ∧ bget [("record_type", Val.str "web_app_config")] "record_type"
        = Val.str "web_app_config"
      ∧ bget [("record_type", Val.str "web_app_config")] "min_tls_version"
        = Val.none
      ∧ AzWebAppTLSEvent.eval ⟨1.2⟩
          [("ext", [("record_type", Val.str "web_app_config")])]
        = Except.error PyErr.typeError :=
  ⟨by decide, by decide, by decide,
    missing_min_tls_version_raises 1.2
      [("ext", [("record_type", Val.str "web_app_config")])]
      [("record_type", Val.str "web_app_config")]
      (by decide) (by decide) (by decide)⟩

/-- C5: for every record whose `ext` bucket has record_type
`web_app_config` but whose `min_tls_version` value cannot be
interpreted as a floating-point number, `eval` raises the parse error
(`ValueError`); `check_worker` does not catch it, so a run that feeds
such a record to the worker ends with the `raised` outcome and never
logs its stop event. -/
theorem parse_error_terminates_worker (t : ℚ) (record : Record)
    (ext : Bucket) (s worker_name : String) (nq : Nat) (doneOk : Bool)
    (rest : List (QItem Record))
    (hext : rget record "ext" = Option.some ext)
    (hty : bget ext "record_type" = Val.str "web_app_config")
    (hv : bget ext "min_tls_version" = Val.str s)
    (hp : parseFloat s = Option.none) :
    AzWebAppTLSEvent.eval ⟨t⟩ record = Except.error PyErr.valueError
      ∧ (check_worker worker_name (tlsEvalF t) nq doneOk
          (QItem.record record :: rest)).2 = Outcome.raised
      ∧ Act.logStop worker_name
          ∉ (check_worker worker_name (tlsEvalF t) nq doneOk
              (QItem.record record :: rest)).1 := by
  have h1 : AzWebAppTLSEvent.eval ⟨t⟩ record
      = Except.error PyErr.valueError := by
    rw [eval_applicable t record ext hext hty, hv, pyFloat_str_none hp]
  have hF : tlsEvalF t record = ([], false) := by
    simp [tlsEvalF, h1]
  have h2 : (check_loop (tlsEvalF t) nq doneOk
      (QItem.record record :: rest)).2 = Outcome.raised := by
    simp [check_loop, hF]
  refine ⟨h1, ?_, ?_⟩
  · rw [check_worker_outcome, h2]
  · intro hmem
    rw [logStop_mem_check_worker_iff, h2] at hmem
    exact Outcome.noConfusion hmem

/-- Witness for C5 at a `web_app_config` record whose
`min_tls_version` is the non-numeric string `TLSv1.2`. -/
theorem parse_error_terminates_worker_witness :
    rget [("ext", [("record_type", Val.str "web_app_config"),
                   ("min_tls_version", Val.str "TLSv1.2")])] "ext"
        = Option.some [("record_type", Val.str "web_app_config"),
                       ("min_tls_version", Val.str "TLSv1.2")]
      ∧ bget [("record_type", Val.str "web_app_config"),
              ("min_tls_version", Val.str "TLSv1.2")] "record_type"
        = Val.str "web_app_config"
      ∧ bget [("record_type", Val.str "web_app_config"),
              ("min_tls_version", Val.str "TLSv1.2")] "min_tls_version"
        = Val.str "TLSv1.2"
      ∧ parseFloat "TLSv1.2" = Option.none
      ∧ (AzWebAppTLSEvent.eval ⟨1.2⟩
            [("ext", [("record_type", Val.str "web_app_config"),
                      ("min_tls_version", Val.str "TLSv1.2")])]
          = Except.error PyErr.valueError
        ∧ (check_worker "check" (tlsEvalF 1.2) 1 true
            (QItem.record [("ext", [("record_type", Val.str "web_app_config"),
                                    ("min_tls_version", Val.str "TLSv1.2")])]
              :: [QItem.sentinel])).2 = Outcome.raised
        ∧ Act.logStop "check"
            ∉ (check_worker "check" (tlsEvalF 1.2) 1 true
                (QItem.record
                    [("ext", [("record_type", Val.str "web_app_config"),
                              ("min_tls_version", Val.str "TLSv1.2")])]
                  :: [QItem.sentinel])).1) :=
  ⟨by decide, by decide, by decide, by decide,
    parse_error_terminates_worker 1.2
      [("ext", [("record_type", Val.str "web_app_config"),
                ("min_tls_version", Val.str "TLSv1.2")])]
      [("record_type", Val.str "web_app_config"),
       ("min_tls_version", Val.str "TLSv1.2")]
      "TLSv1.2" "check" 1 true [QItem.sentinel]
      (by decide) (by decide) (by decide) (by decide)⟩

/-- C10: for every applicable insecure record (ext record_type
`web_app_config`, parsed `min_tls_version` strictly below the
threshold), the `com` bucket is an undocumented precondition: with no
`com` key, forcing `eval` raises `AttributeError` before any event is
yielded; when `com` is present the error branch is unreachable and the
single event is yielded. -/
theorem com_bucket_precondition (t q : ℚ) (record : Record) (ext : Bucket)
    (s : String)
    (hext : rget record "ext" = Option.some ext)
    (hty : bget ext "record_type" = Val.str "web_app_config")
    (hv : bget ext "min_tls_version" = Val.str s)
    (hp : parseFloat s = Option.some q)
    (hlt : q < t) :
    (rget record "com" = Option.none →
        AzWebAppTLSEvent.eval ⟨t⟩ record
          = Except.error PyErr.attributeError)
      ∧ ∀ comB, rget record "com" = Option.some comB →
          ∃ ev, AzWebAppTLSEvent.eval ⟨t⟩ record = Except.ok [ev] := by
  have h0 := eval_insecure t q record ext s hext hty hv hp hlt
  constructor
  · intro hc
    rw [h0, hc]
    rfl
  · intro comB hc
    rw [h0, hc]
    exact ⟨tls_event_record comB ext t, rfl⟩

/-- Witness for C10 at a concrete insecure `web_app_config` record
with no `com` bucket. -/
theorem com_bucket_precondition_witness :
    rget [("ext", [("record_type", Val.str "web_app_config"),
                   ("min_tls_version", Val.str "1.1")])] "ext"
        = Option.some [("record_type", Val.str "web_app_config"),
                       ("min_tls_version", Val.str "1.1")]
      ∧ bget [("record_type", Val.str "web_app_config"),
              ("min_tls_version", Val.str "1.1")] "record_type"
        = Val.str "web_app_config"
      ∧ bget [("record_type", Val.str "web_app_config"),
              ("min_tls_version", Val.str "1.1")] "min_tls_version"
        = Val.str "1.1"
      ∧ parseFloat "1.1" = Option.some ((11 : ℚ) / 10)
      ∧ (11 : ℚ) / 10 < 1.2
      ∧ ((rget [("ext", [("record_type", Val.str "web_app_config"),
                         ("min_tls_version", Val.str "1.1")])] "com"
            = Option.none →
          AzWebAppTLSEvent.eval ⟨1.2⟩
              [("ext", [("record_type", Val.str "web_app_config"),
                        ("min_tls_version", Val.str "1.1")])]
            = Except.error PyErr.attributeError)
        ∧ ∀ comB,
            rget [("ext", [("record_type", Val.str "web_app_config"),
                           ("min_tls_version", Val.str "1.1")])] "com"
              = Option.some comB →
            ∃ ev, AzWebAppTLSEvent.eval ⟨1.2⟩
                [("ext", [("record_type", Val.str "web_app_config"),
                          ("min_tls_version", Val.str "1.1")])]
              = Except.ok [ev]) :=
  ⟨by decide, by decide, by decide, parseFloat_11, by norm_num,
    com_bucket_precondition 1.2 ((11 : ℚ) / 10)
      [("ext", [("record_type", Val.str "web_app_config"),
                ("min_tls_version", Val.str "1.1")])]
      [("record_type", Val.str "web_app_config"),
       ("min_tls_version", Val.str "1.1")]
      "1.1" (by decide) (by decide) (by decide) parseFloat_11 (by norm_num)⟩

/-- C6: whenever `eval` yields an event, the event's `ext` bucket is a
new mapping agreeing with the source `ext` bucket on every key except
`record_type`, which is overridden to `web_app_tls_event`.  In this
pure embedding buckets are immutable values and `merge_dicts` builds a
fresh list, so the source `ext` mapping is unchanged by construction;
the theorem captures the key/value content of the merged bucket
extensionally. -/
theorem merge_semantics_preserved (t q : ℚ) (record : Record)
    (ext comB : Bucket) (s : String)
    (hext : rget record "ext" = Option.some ext)
    (hcom : rget record "com" = Option.some comB)
    (hty : bget ext "record_type" = Val.str "web_app_config")
    (hv : bget ext "min_tls_version" = Val.str s)
    (hp : parseFloat s = Option.some q)
    (hlt : q < t) :
    ∃ ev evext, AzWebAppTLSEvent.eval ⟨t⟩ record = Except.ok [ev]
      ∧ rget ev "ext" = Option.some evext
      ∧ ∀ k, bget evext k
          = if k = "record_type" then Val.str "web_app_tls_event"
            else bget ext k := by
  rw [eval_insecure t q record ext s hext hty hv hp hlt, hcom]
  refine ⟨tls_event_record comB ext t,
    merge_dicts ext [("record_type", Val.str "web_app_tls_event")],
    rfl, rget_event_ext comB ext t, ?_⟩
  intro k
  rw [bget_merge_single]

/-- Witness for C6 at a concrete insecure record carrying both `com`
and `ext` buckets. -/
theorem merge_semantics_preserved_witness :
    rget [("com", [("cloud_type", Val.str "azure"),
                   ("reference", Val.str "app1")]),
          ("ext", [("record_type", Val.str "web_app_config"),
                   ("min_tls_version", Val.str "1.1")])] "ext"
        = Option.some [("record_type", Val.str "web_app_config"),
                       ("min_tls_version", Val.str "1.1")]
      ∧ rget [("com", [("cloud_type", Val.str "azure"),
                       ("reference", Val.str "app1")]),
              ("ext", [("record_type", Val.str "web_app_config"),
                       ("min_tls_version", Val.str "1.1")])] "com"
        = Option.some [("cloud_type", Val.str "azure"),
                       ("reference", Val.str "app1")]
      ∧ bget [("record_type", Val.str "web_app_config"),
              ("min_tls_version", Val.str "1.1")] "record_type"
        = Val.str "web_app_config"
      ∧ bget [("record_type", Val.str "web_app_config"),
              ("min_tls_version", Val.str "1.1")] "min_tls_version"
        = Val.str "1.1"
      ∧ parseFloat "1.1" = Option.some ((11 : ℚ) / 10)
      ∧ (11 : ℚ) / 10 < 1.2
      ∧ ∃ ev evext,
          AzWebAppTLSEvent.eval ⟨1.2⟩
              [("com", [("cloud_type", Val.str "azure"),
                        ("reference", Val.str "app1")]),
               ("ext", [("record_type", Val.str "web_app_config"),
                        ("min_tls_version", Val.str "1.1")])]
            = Except.ok [ev]
          ∧ rget ev "ext" = Option.some evext
          ∧ ∀ k, bget evext k
              = if k = "record_type" then Val.str "web_app_tls_event"
                else bget [("record_type", Val.str "web_app_config"),
                           ("min_tls_version", Val.str "1.1")] k :=
  ⟨by decide, by decide, by decide, by decide, parseFloat_11, by norm_num,
    merge_semantics_preserved 1.2 ((11 : ℚ) / 10)
      [("com", [("cloud_type", Val.str "azure"),
                ("reference", Val.str "app1")]),
       ("ext", [("record_type", Val.str "web_app_config"),
                ("min_tls_version", Val.str "1.1")])]
      [("record_type", Val.str "web_app_config"),
       ("min_tls_version", Val.str "1.1")]
      [("cloud_type", Val.str "azure"), ("reference", Val.str "app1")]
      "1.1" (by decide) (by decide) (by decide) (by decide)
      parseFloat_11 (by norm_num)⟩

/-- C3 counterexample: the claim as stated fails on a record whose
`ext` bucket has record_type `web_app_config` and `min_tls_version`
`"1.1"` but which has no `com` bucket — `eval` raises
`AttributeError` instead of yielding exactly one event. -/
theorem tls_threshold_counterexample :
    AzWebAppTLSEvent.eval ⟨1.2⟩
        [("ext", [("record_type", Val.str "web_app_config"),
                  ("min_tls_version", Val.str "1.1")])]
      = Except.error PyErr.attributeError
    ∧ ¬ ∃ ev : Record,
        AzWebAppTLSEvent.eval ⟨1.2⟩
            [("ext", [("record_type", Val.str "web_app_config"),
                      ("min_tls_version", Val.str "1.1")])]
          = Except.ok [ev] := by
  have h0 := eval_insecure 1.2 ((11 : ℚ) / 10)
    [("ext", [("record_type", Val.str "web_app_config"),
              ("min_tls_version", Val.str "1.1")])]
    [("record_type", Val.str "web_app_config"),
     ("min_tls_version", Val.str "1.1")]
    "1.1" (by decide) (by decide) (by decide) parseFloat_11 (by norm_num)
  have h1 : rget
      [("ext", [("record_type", Val.str "web_app_config"),
                ("min_tls_version", Val.str "1.1")])] "com"
      = Option.none := by decide
  rw [h0, h1]
  refine ⟨rfl, ?_⟩
  rintro ⟨ev, hev⟩
  exact Except.noConfusion hev

/-- C3 (amended): for the TLS plugin with the default threshold `1.2`
and a record whose `ext` bucket has record_type `web_app_config`:
`min_tls_version` `"1.2"` or `"1.3"` yields no event (strict
less-than); `min_tls_version` `"1.1"` yields exactly one event whose
`com` bucket has record_type `web_app_tls_event`, provided the record
carries a `com` bucket (without one, `eval` raises instead — the
undocumented precondition exhibited by the counterexample). -/
theorem tls_threshold_boundary (record : Record) (ext : Bucket)
    (hext : rget record "ext" = Option.some ext)
    (hty : bget ext "record_type" = Val.str "web_app_config") :
    (bget ext "min_tls_version" = Val.str "1.2" →
        AzWebAppTLSEvent.eval ⟨1.2⟩ record = Except.ok [])
      ∧ (bget ext "min_tls_version" = Val.str "1.3" →
        AzWebAppTLSEvent.eval ⟨1.2⟩ record = Except.ok [])
      ∧ (bget ext "min_tls_version" = Val.str "1.1" →
        ∀ comB, rget record "com" = Option.some comB →
        ∃ ev evcom, AzWebAppTLSEvent.eval ⟨1.2⟩ record = Except.ok [ev]
          ∧ rget ev "com" = Option.some evcom
          ∧ bget evcom "record_type" = Val.str "web_app_tls_event") := by
  refine ⟨?_, ?_, ?_⟩
  · intro hv
    rw [eval_applicable 1.2 record ext hext hty, hv,
      pyFloat_str_some parseFloat_12]
    simp [show ¬ ((6 : ℚ) / 5 < 1.2) from by norm_num]
  · intro hv
    rw [eval_applicable 1.2 record ext hext hty, hv,
      pyFloat_str_some parseFloat_13]
    simp [show ¬ ((13 : ℚ) / 10 < 1.2) from by norm_num]
  · intro hv comB hcom
    rw [eval_insecure 1.2 ((11 : ℚ) / 10) record ext "1.1" hext hty hv
      parseFloat_11 (by norm_num), hcom]
    obtain ⟨evcom, h1, h2⟩ := rget_event_com comB ext 1.2
    exact ⟨tls_event_record comB ext 1.2, evcom, rfl, h1, h2⟩

/-- Witness for the amended C3 at a concrete record carrying both
buckets. -/
theorem tls_threshold_boundary_witness :
    rget [("com", [("cloud_type", Val.str "azure"),
                   ("reference", Val.str "app1")]),
          ("ext", [("record_type", Val.str "web_app_config"),
                   ("min_tls_version", Val.str "1.1")])] "ext"
        = Option.some [("record_type", Val.str "web_app_config"),
                       ("min_tls_version", Val.str "1.1")]
      ∧ bget [("record_type", Val.str "web_app_config"),
              ("min_tls_version", Val.str "1.1")] "record_type"
        = Val.str "web_app_config"
      ∧ ((bget [("record_type", Val.str "web_app_config"),
                ("min_tls_version", Val.str "1.1")] "min_tls_version"
            = Val.str "1.2" →
          AzWebAppTLSEvent.eval ⟨1.2⟩
              [("com", [("cloud_type", Val.str "azure"),
                        ("reference", Val.str "app1")]),
               ("ext", [("record_type", Val.str "web_app_config"),
                        ("min_tls_version", Val.str "1.1")])]
            = Except.ok [])
        ∧ (bget [("record_type", Val.str "web_app_config"),
                 ("min_tls_version", Val.str "1.1")] "min_tls_version"
            = Val.str "1.3" →
          AzWebAppTLSEvent.eval ⟨1.2⟩
              [("com", [("cloud_type", Val.str "azure"),
                        ("reference", Val.str "app1")]),
               ("ext", [("record_type", Val.str "web_app_config"),
                        ("min_tls_version", Val.str "1.1")])]
            = Except.ok [])
        ∧ (bget [("record_type", Val.str "web_app_config"),
                 ("min_tls_version", Val.str "1.1")] "min_tls_version"
            = Val.str "1.1" →
          ∀ comB,
            rget [("com", [("cloud_type", Val.str "azure"),
                           ("reference", Val.str "app1")]),
                  ("ext", [("record_type", Val.str "web_app_config"),
                           ("min_tls_version", Val.str "1.1")])] "com"
              = Option.some comB →
            ∃ ev evcom,
              AzWebAppTLSEvent.eval ⟨1.2⟩
                  [("com", [("cloud_type", Val.str "azure"),
                            ("reference", Val.str "app1")]),
                   ("ext", [("record_type", Val.str "web_app_config"),
                            ("min_tls_version", Val.str "1.1")])]
                = Except.ok [ev]
              ∧ rget ev "com" = Option.some evcom
              ∧ bget evcom "record_type" = Val.str "web_app_tls_event")) :=
  ⟨by decide, by decide,
    tls_threshold_boundary
      [("com", [("cloud_type", Val.str "azure"),
                ("reference", Val.str "app1")]),
       ("ext", [("record_type", Val.str "web_app_config"),
                ("min_tls_version", Val.str "1.1")])]
      [("record_type", Val.str "web_app_config"),
       ("min_tls_version", Val.str "1.1")]
      (by decide) (by decide)⟩

theorem gotItems_store_worker (worker_name : String) (writeOk : α → Bool)
    (doneOk : Bool) (input : List (QItem α)) :
    gotItems (store_worker worker_name writeOk doneOk input).1
      = gotItems (store_loop writeOk doneOk input).1 := by
  rw [store_worker_trace, gotItems_append, gotItems_cons_logStart]
  by_cases ho : (store_loop writeOk doneOk input).2 = Outcome.completed <;>
    simp [ho, gotItems_cons_logStop, gotItems_nil]

theorem doneCount_store_worker (worker_name : String) (writeOk : α → Bool)
    (doneOk : Bool) (input : List (QItem α)) :
    doneCount (store_worker worker_name writeOk doneOk input).1
      = doneCount (store_loop writeOk doneOk input).1 := by
  rw [store_worker_trace, doneCount_append, doneCount_cons_logStart]
  by_cases ho : (store_loop writeOk doneOk input).2 = Outcome.completed <;>
    simp [ho, doneCount_cons_logStop, doneCount_nil]

theorem gotItems_check_worker (worker_name : String)
    (evalF : α → List α × Bool) (nq : Nat) (doneOk : Bool)
    (input : List (QItem α)) :
    gotItems (check_worker worker_name evalF nq doneOk input).1
      = gotItems (check_loop evalF nq doneOk input).1 := by
  rw [check_worker_trace, gotItems_append, gotItems_cons_logStart]
  by_cases ho : (check_loop evalF nq doneOk input).2 = Outcome.completed <;>
    simp [ho, gotItems_cons_logStop, gotItems_nil]

theorem doneCount_check_worker (worker_name : String)
    (evalF : α → List α × Bool) (nq : Nat) (doneOk : Bool)
    (input : List (QItem α)) :
    doneCount (check_worker worker_name evalF nq doneOk input).1
      = doneCount (check_loop evalF nq doneOk input).1 := by
  rw [check_worker_trace, doneCount_append, doneCount_cons_logStart]
  by_cases ho : (check_loop evalF nq doneOk input).2 = Outcome.completed <;>
    simp [ho, doneCount_cons_logStop, doneCount_nil]

theorem cloud_worker_head (worker_name : String) (records : List α)
    (readOk : Bool) (nq : Nat) (doneOk : Bool) :
    (cloud_worker worker_name records readOk nq doneOk).1.head?
      = Option.some (Act.logStart worker_name) := by
  cases readOk <;> cases doneOk <;> rfl

theorem store_worker_head (worker_name : String) (writeOk : α → Bool)
    (doneOk : Bool) (input : List (QItem α)) :
    (store_worker worker_name writeOk doneOk input).1.head?
      = Option.some (Act.logStart worker_name) := by
  rw [store_worker_trace]
  rfl

theorem check_worker_head (worker_name : String)
    (evalF : α → List α × Bool) (nq : Nat) (doneOk : Bool)
    (input : List (QItem α)) :
    (check_worker worker_name evalF nq doneOk input).1.head?
      = Option.some (Act.logStart worker_name) := by
  rw [check_worker_trace]
  rfl

theorem logStop_mem_cloud_worker_iff (worker_name : String)
    (records : List α) (readOk : Bool) (nq : Nat) (doneOk : Bool) :
    Act.logStop worker_name
        ∈ (cloud_worker worker_name records readOk nq doneOk).1
      ↔ (readOk = true ∧ doneOk = true) := by
  have hb := logStop_not_mem_flatMap_fanout worker_name nq records
  cases readOk <;> cases doneOk <;>
    simp [cloud_worker, List.mem_cons, List.mem_append, hb]

/-! ## Claims about the workers -/

/-- C1: fan-out replication — for a producer worker (`cloud_worker`)
and a transform worker (`check_worker`) with output queues indexed
below `nq`, every record (respectively every event record yielded by
`eval`) is put into each queue, and the sequence a single worker puts
into any one queue equals, in order, the sequence it produced. -/
theorem fanout_replication (i nq : Nat) (h : i < nq)
    (worker_name : String) (records : List α) (readOk doneOk : Bool)
    (evalF : α → List α × Bool) (input : List (QItem α)) :
    putsTo i (cloud_worker worker_name records readOk nq doneOk).1
        = records.map QItem.record
      ∧ putsTo i (check_worker worker_name evalF nq doneOk input).1
        = (producedEvents evalF input).map QItem.record := by
  rw [putsTo_cloud_worker, putsTo_check_worker]
  exact ⟨if_pos h, if_pos h⟩

/-- Witness for C1: queue 0 of 2 receives exactly the produced
sequences, in order. -/
theorem fanout_replication_witness :
    0 < 2
      ∧ putsTo 0 (cloud_worker "w" ([1, 2] : List Nat) true 2 true).1
        = List.map QItem.record [1, 2]
      ∧ putsTo 0 (check_worker "w" (fun n : Nat => ([n + 10], true)) 2 true
          [QItem.record 1, QItem.sentinel]).1
        = List.map QItem.record
            (producedEvents (fun n : Nat => ([n + 10], true))
              [QItem.record 1, QItem.sentinel]) :=
  have h := fanout_replication 0 2 (by decide) "w" ([1, 2] : List Nat)
    true true (fun n : Nat => ([n + 10], true))
    [QItem.record 1, QItem.sentinel]
  ⟨by decide, h.1, h.2⟩

/-- C4: neither `cloud_worker` nor `check_worker` ever enqueues the
Sentinel into any output queue: what each worker puts into queue `i` is
exactly the records its plugin produced (and nothing at all for an
unconfigured index), so the Sentinel is never among them — the
transform worker consumes the Sentinel without forwarding it. -/
theorem sentinel_never_forwarded (worker_name : String) (records : List α)
    (readOk : Bool) (nq : Nat) (doneOk : Bool)
    (evalF : α → List α × Bool) (input : List (QItem α)) :
    (∀ i, putsTo i (cloud_worker worker_name records readOk nq doneOk).1
        = if i < nq then records.map QItem.record else [])
      ∧ (∀ i, QItem.sentinel
          ∉ putsTo i (cloud_worker worker_name records readOk nq doneOk).1)
      ∧ (∀ i, putsTo i (check_worker worker_name evalF nq doneOk input).1
          = if i < nq
            then (producedEvents evalF input).map QItem.record else [])
      ∧ (∀ i, QItem.sentinel
          ∉ putsTo i (check_worker worker_name evalF nq doneOk input).1) := by
  refine ⟨fun i => putsTo_cloud_worker i worker_name records readOk nq doneOk,
    ?_, fun i => putsTo_check_worker i worker_name evalF nq doneOk input, ?_⟩
  · intro i
    rw [putsTo_cloud_worker]
    by_cases h : i < nq <;> simp [h]
  · intro i
    rw [putsTo_check_worker]
    by_cases h : i < nq <;> simp [h]

/-- C2: on the first Sentinel of its input queue, each reading worker
(`store_worker`, `check_worker`) calls the plugin's `done` exactly
once and reads nothing further — the items it gets are exactly the
prefix up to and including the first Sentinel, whatever follows it; and
over any run whatsoever, `done` is never called more than once. -/
theorem sentinel_termination (worker_name : String) (writeOk : α → Bool)
    (doneOk : Bool) (evalF : α → List α × Bool) (nq : Nat)
    (pre post : List (QItem α))
    (hpre : QItem.sentinel ∉ pre)
    (hw : ∀ r, QItem.record r ∈ pre → writeOk r = true)
    (he : ∀ r, QItem.record r ∈ pre → (evalF r).2 = true) :
    doneCount (store_worker worker_name writeOk doneOk
        (pre ++ QItem.sentinel :: post)).1 = 1
      ∧ gotItems (store_worker worker_name writeOk doneOk
          (pre ++ QItem.sentinel :: post)).1 = pre ++ [QItem.sentinel]
      ∧ doneCount (check_worker worker_name evalF nq doneOk
          (pre ++ QItem.sentinel :: post)).1 = 1
      ∧ gotItems (check_worker worker_name evalF nq doneOk
          (pre ++ QItem.sentinel :: post)).1 = pre ++ [QItem.sentinel]
      ∧ ∀ input : List (QItem α),
          doneCount (store_worker worker_name writeOk doneOk input).1 ≤ 1
        ∧ doneCount (check_worker worker_name evalF nq doneOk input).1 ≤ 1 := by
  obtain ⟨hs1, hs2, -, -⟩ := store_loop_reach writeOk doneOk pre post hpre hw
  obtain ⟨hc1, hc2, -, -⟩ := check_loop_reach evalF nq doneOk pre post hpre he
  refine ⟨?_, ?_, ?_, ?_, ?_⟩
  · rw [doneCount_store_worker, hs2]
  · rw [gotItems_store_worker, hs1]
  · rw [doneCount_check_worker, hc2]
  · rw [gotItems_check_worker, hc1]
  · intro input
    exact ⟨by
        rw [doneCount_store_worker]
        exact (store_loop_any writeOk doneOk input).1,
      by
        rw [doneCount_check_worker]
        exact (check_loop_any evalF nq doneOk input).1⟩

/-- Witness for C2: one record before the Sentinel, one stray record
after it. -/
theorem sentinel_termination_witness :
    QItem.sentinel ∉ ([QItem.record 5] : List (QItem Nat))
      ∧ doneCount (store_worker "w" (fun _ : Nat => true) true
          ([QItem.record 5] ++ QItem.sentinel :: [QItem.record 7])).1 = 1
      ∧ gotItems (store_worker "w" (fun _ : Nat => true) true
          ([QItem.record 5] ++ QItem.sentinel :: [QItem.record 7])).1
        = [QItem.record 5] ++ [QItem.sentinel]
      ∧ doneCount (check_worker "w" (fun n : Nat => ([n], true)) 1 true
          ([QItem.record 5] ++ QItem.sentinel :: [QItem.record 7])).1 = 1
      ∧ gotItems (check_worker "w" (fun n : Nat => ([n], true)) 1 true
          ([QItem.record 5] ++ QItem.sentinel :: [QItem.record 7])).1
        = [QItem.record 5] ++ [QItem.sentinel] :=
  have h := sentinel_termination "w" (fun _ : Nat => true) true
    (fun n : Nat => ([n], true)) 1 [QItem.record 5] [QItem.record 7]
    (by decide) (fun _ _ => rfl) (fun _ _ => rfl)
  ⟨by decide, h.1, h.2.1, h.2.2.1, h.2.2.2.1⟩

/-- C8: every worker's first action is the start log tagged with its
`worker_name`; the stop log (same tag) is emitted if and only if no
plugin method raised — for `cloud_worker` exactly when `read` and
`done` both return normally, and for `store_worker`/`check_worker` on a
queue carrying a Sentinel exactly when every `write`/`eval` before the
Sentinel and `done` return normally; and in every successful run the
trace ends with the `done` call immediately followed by the stop log,
so a raising `done` terminates the worker with its stop event never
logged. -/
theorem start_stop_logging (worker_name : String) (records : List α)
    (readOk : Bool) (nq : Nat) (doneOk : Bool) (writeOk : α → Bool)
    (evalF : α → List α × Bool) (input : List (QItem α))
    (pre post : List (QItem α)) (hpre : QItem.sentinel ∉ pre) :
    ((cloud_worker worker_name records readOk nq doneOk).1.head?
        = Option.some (Act.logStart worker_name))
      ∧ ((store_worker worker_name writeOk doneOk input).1.head?
        = Option.some (Act.logStart worker_name))
      ∧ ((check_worker worker_name evalF nq doneOk input).1.head?
        = Option.some (Act.logStart worker_name))
      ∧ (Act.logStop worker_name
          ∈ (cloud_worker worker_name records readOk nq doneOk).1
        ↔ (readOk = true ∧ doneOk = true))
      ∧ (Act.logStop worker_name
          ∈ (store_worker worker_name writeOk doneOk
              (pre ++ QItem.sentinel :: post)).1
        ↔ ((∀ r, QItem.record r ∈ pre → writeOk r = true)
            ∧ doneOk = true))
      ∧ (Act.logStop worker_name
          ∈ (check_worker worker_name evalF nq doneOk
              (pre ++ QItem.sentinel :: post)).1
        ↔ ((∀ r, QItem.record r ∈ pre → (evalF r).2 = true)
            ∧ doneOk = true))
      ∧ (readOk = true → doneOk = true →
          ∃ t0, (cloud_worker worker_name records readOk nq doneOk).1
            = t0 ++ [Act.done, Act.logStop worker_name])
      ∧ ((∀ r, QItem.record r ∈ pre → writeOk r = true) → doneOk = true →
          ∃ t0, (store_worker worker_name writeOk doneOk
              (pre ++ QItem.sentinel :: post)).1
            = t0 ++ [Act.done, Act.logStop worker_name])
      ∧ ((∀ r, QItem.record r ∈ pre → (evalF r).2 = true) → doneOk = true →
          ∃ t0, (check_worker worker_name evalF nq doneOk
              (pre ++ QItem.sentinel :: post)).1
            = t0 ++ [Act.done, Act.logStop worker_name]) := by
  refine ⟨cloud_worker_head worker_name records readOk nq doneOk,
    store_worker_head worker_name writeOk doneOk input,
    check_worker_head worker_name evalF nq doneOk input,
    logStop_mem_cloud_worker_iff worker_name records readOk nq doneOk,
    ?_, ?_, ?_, ?_, ?_⟩
  · rw [logStop_mem_store_worker_iff,
      store_loop_completed_iff writeOk doneOk pre post hpre]
  · rw [logStop_mem_check_worker_iff,
      check_loop_completed_iff evalF nq doneOk pre post hpre]
  · intro hr hd
    subst hr
    subst hd
    refine ⟨Act.logStart worker_name
      :: records.flatMap (fun r => fanout nq r), ?_⟩
    simp [cloud_worker]
  · intro hw hd
    subst hd
    obtain ⟨-, -, ho, t0, hshape⟩ :=
      store_loop_reach writeOk true pre post hpre hw
    simp only [ite_true] at ho
    rw [store_worker_trace, hshape, ho]
    refine ⟨Act.logStart worker_name
      :: (t0 ++ [Act.got QItem.sentinel]), ?_⟩
    simp
  · intro he hd
    subst hd
    obtain ⟨-, -, ho, t0, hshape⟩ :=
      check_loop_reach evalF nq true pre post hpre he
    simp only [ite_true] at ho
    rw [check_worker_trace, hshape, ho]
    refine ⟨Act.logStart worker_name
      :: (t0 ++ [Act.got QItem.sentinel]), ?_⟩
    simp

/-- Witness for C8 at concrete all-successful runs. -/
theorem start_stop_logging_witness :
    QItem.sentinel ∉ ([] : List (QItem Nat))
      ∧ (cloud_worker "w" ([3] : List Nat) true 1 true).1.head?
        = Option.some (Act.logStart "w")
      ∧ (Act.logStop "w" ∈ (cloud_worker "w" ([3] : List Nat) true 1 true).1
          ↔ (true = true ∧ true = true)) :=
  have h := start_stop_logging "w" ([3] : List Nat) true 1 true
    (fun _ => true) (fun n : Nat => ([n], true)) [QItem.sentinel] [] []
    (by decide)
  ⟨by decide, h.1, h.2.2.2.1⟩

end Cloudmarker
